import Mathlib

/-!
Shallow embedding of the storage command layer of the `teachers-assistant`
Tauri backend (`src-tauri/src/commands/`): JSON documents stored in index
files, upsert/delete/search commands, and the Ollama status check.

JSON parsing and serialization are abstracted (the spec declares them out of
scope): a file's content is modelled as `Option JVal` where `none` stands for
bytes that fail to parse; command string inputs are likewise `Option JVal`.
Timestamps (`chrono::Utc::now().to_rfc3339()`) are passed in as an explicit
`now : String` parameter.
-/

/-- A JSON value, mirroring `serde_json::Value`.  Objects are association
lists with unique keys; numbers are collapsed to `Int` (no claim inspects
numeric values beyond equality with non-numbers, which is always false). -/
inductive JVal where
  | null
  | bool (b : Bool)
  | num (n : Int)
  | str (s : String)
  | arr (elems : List JVal)
  | obj (fields : List (String × JVal))

/-- Source `Value::get(key)` on an object: first binding of the key, else `None`;
`None` on every non-object. -/
def JVal.getKey : JVal → String → Option JVal
  | .obj fs, k => fs.lookup k
  | _, _ => none

/-- Source `Value::as_str()`. -/
def JVal.asStr : JVal → Option String
  | .str s => some s
  | _ => none

/-- Source `v.get(field).and_then(|x| x.as_str())`: the identity-field string of a
document, when present. -/
def idOf (field : String) (v : JVal) : Option String :=
  (v.getKey field).bind JVal.asStr

/-- One stored index file.  `file (some v)`: the file exists and its bytes
parse as the JSON value `v`; `file none`: the file exists but its bytes are
not valid JSON; `absent`: the file does not exist. -/
inductive FileState where
  | absent
  | file (parsed : Option JVal)

/-- Source `serde_json::from_str::<Vec<Value>>(content).unwrap_or_else(|_| Vec::new())`
over the guarded read pattern shared by all index commands: an absent file,
unparseable bytes, or JSON that is not an array all yield the empty vector. -/
def parseVec : FileState → List JVal
  | .file (some (.arr l)) => l
  | _ => []

/-- The upsert loop of `save_design_pack` / `save_local_project` /
`save_learner_profile`: replace the first entry whose identity field equals
`pid` with `nd`; if no entry matches, push `nd` at the end. -/
def upsertList (field pid : String) (nd : JVal) : List JVal → List JVal
  | [] => [nd]
  | x :: xs =>
    if idOf field x == some pid then nd :: xs
    else x :: upsertList field pid nd xs

/-- The `retain` call of the delete commands: keep exactly the entries whose
identity field differs from `pid`. -/
def retainOthers (field pid : String) (l : List JVal) : List JVal :=
  l.filter (fun p => !(idOf field p == some pid))

-- ============================================
-- Design pack commands (commands/design_pack_storage.rs)
-- ============================================

/-- Source `get_design_packs`: absent file yields the literal `[]`; otherwise the
file content is returned verbatim (`none` = the raw unparseable bytes). -/
def get_design_packs : FileState → Except String (Option JVal)
  | .absent => .ok (some (.arr []))
  | .file j => .ok j

/-- Source `get_design_pack`: error when the index file is absent, else linear scan
for the first pack whose `packId` matches. -/
def get_design_pack (st : FileState) (packId : String) : Except String JVal :=
  match st with
  | .absent => .error ("Design pack not found: " ++ packId)
  | .file _ =>
    match (parseVec st).find? (fun p => idOf "packId" p == some packId) with
    | some p => .ok p
    | none => .error ("Design pack not found: " ++ packId)

/-- Source `save_design_pack`: parse the input (`none` = malformed JSON), require a
string `packId`, upsert into the parsed index, write back. -/
def save_design_pack (st : FileState) (input : Option JVal) :
    Except String FileState :=
  match input with
  | none => .error "Invalid pack JSON"
  | some nd =>
    match idOf "packId" nd with
    | none => .error "Pack must have a packId"
    | some pid => .ok (.file (some (.arr (upsertList "packId" pid nd (parseVec st)))))

/-- Source `delete_design_pack`: no-op on an absent file; otherwise retain all packs
with a different `packId` and write back. -/
def delete_design_pack (st : FileState) (packId : String) :
    Except String FileState :=
  match st with
  | .absent => .ok .absent
  | .file _ => .ok (.file (some (.arr (retainOthers "packId" packId (parseVec st)))))

-- ============================================
-- Local project commands (commands/project_storage.rs)
-- ============================================

/-- Source `get_local_projects`: absent file yields `[]`, else content verbatim. -/
def get_local_projects : FileState → Except String (Option JVal)
  | .absent => .ok (some (.arr []))
  | .file j => .ok j

/-- Source `get_local_project`: linear scan by `projectId`, "not found" otherwise. -/
def get_local_project (st : FileState) (projectId : String) :
    Except String JVal :=
  match st with
  | .absent => .error ("Project not found: " ++ projectId)
  | .file _ =>
    match (parseVec st).find? (fun p => idOf "projectId" p == some projectId) with
    | some p => .ok p
    | none => .error ("Project not found: " ++ projectId)

/-- Source `save_local_project`: upsert by `projectId`. -/
def save_local_project (st : FileState) (input : Option JVal) :
    Except String FileState :=
  match input with
  | none => .error "Invalid project JSON"
  | some nd =>
    match idOf "projectId" nd with
    | none => .error "Project must have a projectId"
    | some pid => .ok (.file (some (.arr (upsertList "projectId" pid nd (parseVec st)))))

/-- Source `delete_local_project`: retain projects with a different `projectId`. -/
def delete_local_project (st : FileState) (projectId : String) :
    Except String FileState :=
  match st with
  | .absent => .ok .absent
  | .file _ => .ok (.file (some (.arr (retainOthers "projectId" projectId (parseVec st)))))

/-- Source `Value::Array(xs).contains(&Value::String(s))`: `serde_json` value
equality against a string value holds exactly for the equal string. -/
def isStrVal (s : String) : JVal → Bool
  | .str t => t == s
  | _ => false

/-- Insert-or-replace a key in an object's field list, keeping the position
of an existing binding (`serde_json::Map::insert`). -/
def fieldsInsert (k : String) (v : JVal) : List (String × JVal) → List (String × JVal)
  | [] => [(k, v)]
  | (k2, v2) :: fs =>
    if k2 == k then (k, v) :: fs else (k2, v2) :: fieldsInsert k v fs

/-- The in-place mutation `add_artifact_to_project` applies to the matching
project document: ensure an `artifactIds` entry (default `[]`), push the
artifact id if the array does not already contain it, then set
`lastActivityDate` and `updatedAt` to the current time.  A non-object
document is returned unchanged (`as_object_mut` fails). -/
def addToProjectDoc (artifactId now : String) : JVal → JVal
  | .obj fs =>
    let fs0 := if (fs.lookup "artifactIds").isSome then fs
               else fs ++ [("artifactIds", .arr [])]
    let cur := (fs0.lookup "artifactIds").getD (.arr [])
    let cur2 := match cur with
      | .arr xs => JVal.arr (if xs.any (isStrVal artifactId) then xs
                             else xs ++ [.str artifactId])
      | other => other
    let fs1 := fieldsInsert "artifactIds" cur2 fs0
    let fs2 := fieldsInsert "lastActivityDate" (.str now) fs1
    let fs3 := fieldsInsert "updatedAt" (.str now) fs2
    .obj fs3
  | v => v

/-- The scan-and-mutate loop shared with `add_artifact_to_project`: apply `g`
to the first entry whose identity field equals `pid`; `none` when no entry
matches (`found = false`). -/
def modifyFirst (field pid : String) (g : JVal → JVal) : List JVal → Option (List JVal)
  | [] => none
  | x :: xs =>
    if idOf field x == some pid then some (g x :: xs)
    else
      match modifyFirst field pid g xs with
      | some ys => some (x :: ys)
      | none => none

/-- Source `add_artifact_to_project`: error when the index file is absent or no
project matches (nothing is written in either case); otherwise mutate the
first matching project and write the array back. -/
def add_artifact_to_project (st : FileState) (projectId artifactId now : String) :
    Except String FileState :=
  match st with
  | .absent => .error ("Project not found: " ++ projectId)
  | .file _ =>
    match modifyFirst "projectId" projectId (addToProjectDoc artifactId now) (parseVec st) with
    | some l2 => .ok (.file (some (.arr l2)))
    | none => .error ("Project not found: " ++ projectId)

-- ============================================
-- Learner profile commands (commands/learner_storage.rs)
-- ============================================

/-- Source `get_learner_profiles`: absent file yields `[]`, else content verbatim. -/
def get_learner_profiles : FileState → Except String (Option JVal)
  | .absent => .ok (some (.arr []))
  | .file j => .ok j

/-- Source `save_learner_profile`: upsert by `learnerId` (creation of the learner's
data directory is pure I/O and outside the index state). -/
def save_learner_profile (st : FileState) (input : Option JVal) :
    Except String FileState :=
  match input with
  | none => .error "Invalid profile JSON"
  | some nd =>
    match idOf "learnerId" nd with
    | none => .error "Profile must have a learnerId"
    | some pid => .ok (.file (some (.arr (upsertList "learnerId" pid nd (parseVec st)))))

/-- Source `delete_learner_profile`, restricted to the profiles index it rewrites
(removal of the per-learner data directory is outside this state). -/
def delete_learner_profile (st : FileState) (learnerId : String) :
    Except String FileState :=
  match st with
  | .absent => .ok .absent
  | .file _ => .ok (.file (some (.arr (retainOthers "learnerId" learnerId (parseVec st)))))

-- ============================================
-- Library commands (commands/library_storage.rs)
-- ============================================

/-- The library on disk: the per-artifact content files
(`library/artifacts/<id>.json`, keyed by artifact id, content as written by
`save_artifact` which validated it as JSON) and the metadata index file
(`library/index.json`). -/
structure LibraryState where
  files : List (String × JVal)
  index : FileState

/-- Replace-or-add an artifact file (`fs::write` to `<id>.json`). -/
def filesInsertA (id : String) (v : JVal) : List (String × JVal) → List (String × JVal)
  | [] => [(id, v)]
  | (k, w) :: fs => if k == id then (id, v) :: fs else (k, w) :: filesInsertA id v fs

/-- Source `fs::remove_file` of `<id>.json`, a no-op when the file is absent. -/
def filesRemoveA (id : String) (fs : List (String × JVal)) : List (String × JVal) :=
  fs.filter (fun kv => !(kv.1 == id))

/-- The default library index object built whenever the index file is absent
or its content fails to parse. -/
def defaultIndex (now : String) : JVal :=
  .obj [("version", .num 1), ("lastUpdated", .str now), ("artifacts", .arr [])]

/-- Source `get_library_index`: absent file yields the default index object (not an
array); otherwise the file content verbatim. -/
def get_library_index (st : FileState) (now : String) :
    Except String (Option JVal) :=
  match st with
  | .absent => .ok (some (defaultIndex now))
  | .file j => .ok j

/-- Source `get_artifact`: read `<id>.json`, "not found" when the file is absent. -/
def get_artifact (st : LibraryState) (artifactId : String) : Except String JVal :=
  match st.files.lookup artifactId with
  | some v => .ok v
  | none => .error ("Artifact not found: " ++ artifactId)

/-- The metadata-only index entry `save_artifact` builds: each field is the
artifact's value for that key, with `null` for a missing key (`json!` turns
`Option::None` into `null`). -/
def indexEntry (v : JVal) : JVal :=
  .obj [("artifactId", (v.getKey "artifactId").getD .null),
        ("projectId", (v.getKey "projectId").getD .null),
        ("jobId", (v.getKey "jobId").getD .null),
        ("type", (v.getKey "type").getD .null),
        ("title", (v.getKey "title").getD .null),
        ("grade", (v.getKey "grade").getD .null),
        ("subject", (v.getKey "subject").getD .null),
        ("objectiveTags", (v.getKey "objectiveTags").getD .null),
        ("designPackId", (v.getKey "designPackId").getD .null),
        ("createdAt", (v.getKey "createdAt").getD .null)]

/-- Replace the value of key `k` in an object (used through `get_mut`); a
non-object is unchanged. -/
def setKey (k : String) (v : JVal) : JVal → JVal
  | .obj fs => .obj (fieldsInsert k v fs)
  | w => w

/-- Source `save_artifact`: validate the input and its `artifactId`, write the full
artifact to its own file, then rebuild the index: parse it (default object
when absent or unparseable), remove every existing entry with the same id
from the `artifacts` array and push the new metadata entry (skipped when
there is no `artifacts` array), and stamp `lastUpdated`. -/
def save_artifact (st : LibraryState) (input : Option JVal) (now : String) :
    Except String LibraryState :=
  match input with
  | none => .error "Invalid artifact JSON"
  | some v =>
    match idOf "artifactId" v with
    | none => .error "Artifact must have an artifactId"
    | some aid =>
      let files2 := filesInsertA aid v st.files
      let idx := match st.index with
        | .file (some j) => j
        | _ => defaultIndex now
      let idx2 := match idx.getKey "artifacts" with
        | some (.arr l) =>
          setKey "artifacts" (.arr (retainOthers "artifactId" aid l ++ [indexEntry v])) idx
        | _ => idx
      let idx3 := setKey "lastUpdated" (.str now) idx2
      .ok { files := files2, index := .file (some idx3) }

/-- Source `delete_artifact`: remove the artifact file when present; when the index
file exists, parse it (default object on failure), drop every `artifacts`
entry with the id, stamp `lastUpdated`, and write back.  Never an error. -/
def delete_artifact (st : LibraryState) (artifactId now : String) :
    Except String LibraryState :=
  let files2 := filesRemoveA artifactId st.files
  match st.index with
  | .absent => .ok { files := files2, index := .absent }
  | .file j =>
    let idx := j.getD (defaultIndex now)
    let idx2 := match idx.getKey "artifacts" with
      | some (.arr l) => setKey "artifacts" (.arr (retainOthers "artifactId" artifactId l)) idx
      | _ => idx
    let idx3 := setKey "lastUpdated" (.str now) idx2
    .ok { files := files2, index := .file (some idx3) }

/-- Whether `needle` occurs as a contiguous run inside `hay` (Rust `str::contains`). -/
def charsContain (needle : List Char) : List Char → Bool
  | [] => needle.isEmpty
  | h :: t => needle.isPrefixOf (h :: t) || charsContain needle t

/-- Case-insensitive substring test used by the `searchText` filter:
both sides lowercased, then substring containment. -/
def containsLower (hay needle : String) : Bool :=
  charsContain needle.toLower.data hay.toLower.data

/-- A query's string-valued filter key (`query.get(k).and_then(as_str)`):
the filter for `k` is present exactly when this is `some`. -/
def qStr (q : JVal) (k : String) : Option String :=
  (q.getKey k).bind JVal.asStr

/-- One equality guard of `search_artifacts`: when the query carries a
string under `k`, the artifact's string under `k` must equal it. -/
def filterEq (q a : JVal) (k : String) : Bool :=
  match qStr q k with
  | some s => idOf k a == some s
  | none => true

/-- The `objectiveTag` guard: the artifact's `objectiveTags` must be an
array containing the queried tag as a string. -/
def filterTag (q a : JVal) : Bool :=
  match qStr q "objectiveTag" with
  | some tag =>
    match a.getKey "objectiveTags" with
    | some (.arr ts) => ts.any (fun t => t.asStr == some tag)
    | _ => false
  | none => true

/-- The `searchText` guard: lowercased query text must occur in the
lowercased `title`. -/
def filterText (q a : JVal) : Bool :=
  match qStr q "searchText" with
  | some s =>
    match idOf "title" a with
    | some title => containsLower title s
    | none => false
  | none => true

/-- The filter predicate of `search_artifacts`, exactly the seven guards of
the source in order: `projectId`, `grade`, `subject`, `type` equality;
`objectiveTag` membership; `designPackId` equality; `searchText`
case-insensitive substring of `title`. -/
def matchesQuery (q a : JVal) : Bool :=
  filterEq q a "projectId" && filterEq q a "grade" && filterEq q a "subject" &&
  filterEq q a "type" && filterTag q a && filterEq q a "designPackId" &&
  filterText q a

/-- Source `search_artifacts`: empty result on an absent index file (checked before
the query is parsed); error on a malformed query; otherwise parse the index
(default object on failure), and filter its `artifacts` array (empty result
when there is none). -/
def search_artifacts (st : FileState) (input : Option JVal) (now : String) :
    Except String (List JVal) :=
  match st with
  | .absent => .ok []
  | .file j =>
    match input with
    | none => .error "Invalid query JSON"
    | some q =>
      let idx := j.getD (defaultIndex now)
      match idx.getKey "artifacts" with
      | some (.arr l) => .ok (l.filter (fun a => matchesQuery q a))
      | _ => .ok []

-- ============================================
-- Ollama status (commands/ollama.rs)
-- ============================================

/-- Outcome of the `GET /api/tags` probe: request failure, non-success
status, success with a body that fails to deserialize, or a parsed
`OllamaTagsResponse` (whose `models` field is optional). -/
inductive ApiTags where
  | unreachable
  | httpError
  | badBody
  | tags (models : Option (List String))

/-- The environment `check_ollama_status` observes: the exit status of the
PATH lookup (`which`/`where ollama`), the `--version` CLI output when it
succeeds, and the API probe outcome. -/
structure OllamaEnv where
  whichOk : Bool
  versionCli : Option String
  api : ApiTags

/-- The result struct `OllamaStatus`. -/
structure OllamaStatus where
  installed : Bool
  running : Bool
  version : Option String
  models : List String

/-- Source `is_ollama_installed`: success of the PATH lookup. -/
def is_ollama_installed (env : OllamaEnv) : Bool :=
  env.whichOk

/-- Source `get_ollama_version`: stdout of `ollama --version` when it succeeds. -/
def get_ollama_version (env : OllamaEnv) : Option String :=
  env.versionCli

/-- Source `check_ollama_status`: when installed, query version and probe the API
(a success status means running, and a parseable body supplies the model
names); when not installed, everything stays at its initial value.  The
command always returns `Ok`. -/
def check_ollama_status (env : OllamaEnv) : Except String OllamaStatus :=
  let installed := is_ollama_installed env
  let version := if installed then get_ollama_version env else none
  let runningModels : Bool × List String :=
    if installed then
      match env.api with
      | .tags ms => (true, ms.getD [])
      | .badBody => (true, [])
      | .unreachable => (false, [])
      | .httpError => (false, [])
    else (false, [])
  .ok { installed := installed, running := runningModels.1,
        version := version, models := runningModels.2 }

-- ============================================
-- Invariants and helper lemmas
-- ============================================

/-- The spec's index invariant: no two entries share the same (string)
identity-field value.  Entries without a string identity field constrain
nothing. -/
def uniqueIds (field : String) : List JVal → Bool
  | [] => true
  | x :: xs =>
    (match idOf field x with
     | some s => !(xs.any (fun y => idOf field y == some s))
     | none => true) && uniqueIds field xs

/-- Number of entries carrying the identity value `pid`. -/
def countId (field pid : String) (l : List JVal) : Nat :=
  (l.filter (fun p => idOf field p == some pid)).length

/-- Whether a command outcome is `Result::is_ok`. -/
def okB {α : Type} : Except String α → Bool
  | .ok _ => true
  | .error _ => false

/-- The input is parseable JSON carrying a string-valued identity field
(the spec's data model: entities are "identified by a single string field"). -/
def hasStrId (field : String) : Option JVal → Bool
  | none => false
  | some v => (idOf field v).isSome

/-- The value is a JSON array. -/
def isArr : JVal → Bool
  | .arr _ => true
  | _ => false

/-- The entries of the library's metadata index: the `artifacts` array of
the parsed index file, empty when the file is absent, unparseable, or not
shaped as an object with an `artifacts` array. -/
def libEntries (st : LibraryState) : List JVal :=
  match st.index with
  | .file (some idx) =>
    match idx.getKey "artifacts" with
    | some (.arr l) => l
    | _ => []
  | _ => []

/-- Occurrences of the string value `s` in a JSON array's elements. -/
def countStrVal (s : String) (xs : List JVal) : Nat :=
  (xs.filter (isStrVal s)).length

/-- The filter set exactly as claim C2 enumerates it: `projectId`, `grade`,
`subject`, `type` equality; `objectiveTag` membership; `searchText`
case-insensitive substring of `title` — without the `designPackId` equality
filter that the code also applies. -/
def claimFilters (q a : JVal) : Bool :=
  filterEq q a "projectId" && filterEq q a "grade" && filterEq q a "subject" &&
  filterEq q a "type" && filterTag q a && filterText q a

theorem uniqueIds_cons {field : String} {x : JVal} {xs : List JVal}
    (h : uniqueIds field (x :: xs) = true) :
    uniqueIds field xs = true := by
  unfold uniqueIds at h
  exact (Bool.and_eq_true _ _ |>.mp h).2

theorem uniqueIds_head {field s : String} {x : JVal} {xs : List JVal}
    (h : uniqueIds field (x :: xs) = true) (hx : idOf field x = some s) :
    xs.any (fun y => idOf field y == some s) = false := by
  unfold uniqueIds at h
  have h1 := (Bool.and_eq_true _ _ |>.mp h).1
  rw [hx] at h1
  simpa using h1

theorem countId_le_one_of_uniqueIds {field pid : String} {l : List JVal}
    (h : uniqueIds field l = true) : countId field pid l ≤ 1 := by
  induction l with
  | nil => simp [countId]
  | cons x xs ih =>
    by_cases hx : idOf field x = some pid
    · have hany := uniqueIds_head h hx
      have hnone : ∀ y ∈ xs, ¬(idOf field y == some pid) = true := by
        intro y hy hcontra
        have : xs.any (fun y => idOf field y == some pid) = true :=
          List.any_eq_true.mpr ⟨y, hy, hcontra⟩
        rw [this] at hany; exact Bool.noConfusion hany
      have hfil : xs.filter (fun p => idOf field p == some pid) = [] := by
        apply List.filter_eq_nil_iff.mpr
        intro y hy
        exact hnone y hy
      simp [countId, List.filter_cons, hx, hfil]
    · have hxb : (idOf field x == some pid) = false := by
        simp [hx]
      have := ih (uniqueIds_cons h)
      simpa [countId, List.filter_cons, hxb] using this

/-- Saving a document replaces the first matching entry (or appends), so a
second save of the same document finds that entry and rewrites it in place:
the upsert loop is idempotent. -/
theorem upsertList_idem (field pid : String) (nd : JVal)
    (hnd : idOf field nd = some pid) (l : List JVal) :
    upsertList field pid nd (upsertList field pid nd l) =
      upsertList field pid nd l := by
  induction l with
  | nil => simp [upsertList, hnd]
  | cons x xs ih =>
    by_cases hx : (idOf field x == some pid) = true
    · simp [upsertList, hx, hnd]
    · have hx' : (idOf field x == some pid) = false := by
        simpa using hx
      simp [upsertList, hx', ih]

/-- After an upsert into an index holding at most one entry with the id, the
entries carrying the id are exactly the saved document. -/
theorem upsertList_filter_eq (field pid : String) (nd : JVal)
    (hnd : idOf field nd = some pid) (l : List JVal)
    (hcount : countId field pid l ≤ 1) :
    (upsertList field pid nd l).filter (fun p => idOf field p == some pid) =
      [nd] := by
  induction l with
  | nil => simp [upsertList, List.filter_cons, hnd]
  | cons x xs ih =>
    by_cases hx : (idOf field x == some pid) = true
    · have hxs : xs.filter (fun p => idOf field p == some pid) = [] := by
        unfold countId at hcount
        rw [List.filter_cons, if_pos hx] at hcount
        simp only [List.length_cons] at hcount
        have : (xs.filter (fun p => idOf field p == some pid)).length = 0 :=
          Nat.le_zero.mp (Nat.le_of_succ_le_succ hcount)
        exact List.length_eq_zero.mp this
      simp [upsertList, hx, List.filter_cons, hnd, hxs]
    · have hx' : (idOf field x == some pid) = false := by
        simpa using hx
      have hcount' : countId field pid xs ≤ 1 := by
        unfold countId at hcount ⊢
        rwa [List.filter_cons, if_neg (by simp [hx'])] at hcount
      simp [upsertList, hx', List.filter_cons, ih hcount']

/-- Entries of the upsert result whose id misses both `pid` and the probe
behave as in the original list (auxiliary for uniqueness preservation). -/
theorem upsertList_any_ne (field pid s : String) (nd : JVal)
    (hnd : idOf field nd = some pid) (hne : s ≠ pid) (l : List JVal) :
    (upsertList field pid nd l).any (fun y => idOf field y == some s) =
      l.any (fun y => idOf field y == some s) := by
  have hne' : ¬pid = s := fun hEq => hne hEq.symm
  induction l with
  | nil =>
    simp [upsertList, hnd, hne']
  | cons x xs ih =>
    by_cases hx : (idOf field x == some pid) = true
    · have hxs : (idOf field nd == some s) = false := by
        simp [hnd, hne']
      have hxx : (idOf field x == some s) = false := by
        have : idOf field x = some pid := by simpa using hx
        simp [this, hne']
      simp [upsertList, hx, List.any_cons, hxs, hxx]
    · have hx' : (idOf field x == some pid) = false := by simpa using hx
      simp [upsertList, hx', List.any_cons, ih]

/-- The upsert loop preserves the uniqueness invariant. -/
theorem upsertList_uniqueIds (field pid : String) (nd : JVal)
    (hnd : idOf field nd = some pid) (l : List JVal)
    (h : uniqueIds field l = true) :
    uniqueIds field (upsertList field pid nd l) = true := by
  induction l with
  | nil => simp [upsertList, uniqueIds, hnd]
  | cons x xs ih =>
    by_cases hx : (idOf field x == some pid) = true
    · have hxpid : idOf field x = some pid := by simpa using hx
      have hany := uniqueIds_head h hxpid
      unfold upsertList
      rw [if_pos hx]
      unfold uniqueIds
      rw [hnd]
      simp only [Bool.and_eq_true]
      exact ⟨by simpa using hany, uniqueIds_cons h⟩
    · have hx' : (idOf field x == some pid) = false := by simpa using hx
      unfold upsertList
      rw [if_neg (by simp [hx'])]
      unfold uniqueIds
      simp only [Bool.and_eq_true]
      refine ⟨?_, ih (uniqueIds_cons h)⟩
      match hxid : idOf field x with
      | none => simp
      | some s =>
        have hne : s ≠ pid := by
          intro hEq; subst hEq
          rw [hxid] at hx'; simp at hx'
        show (!(upsertList field pid nd xs).any fun y => idOf field y == some s) = true
        rw [upsertList_any_ne field pid s nd hnd hne xs]
        have := uniqueIds_head h hxid
        simpa using this

/-- Filtering (the delete loop) preserves the uniqueness invariant. -/
theorem filter_uniqueIds (field : String) (p : JVal → Bool) (l : List JVal)
    (h : uniqueIds field l = true) :
    uniqueIds field (l.filter p) = true := by
  induction l with
  | nil => simpa using h
  | cons x xs ih =>
    have hxs := ih (uniqueIds_cons h)
    rw [List.filter_cons]
    by_cases hp : p x = true
    · rw [if_pos hp]
      unfold uniqueIds
      simp only [Bool.and_eq_true]
      refine ⟨?_, hxs⟩
      match hxid : idOf field x with
      | none => simp
      | some s =>
        have hany := uniqueIds_head h hxid
        have : (xs.filter p).any (fun y => idOf field y == some s) = false := by
          rw [Bool.eq_false_iff]
          intro hcontra
          obtain ⟨y, hy, hyy⟩ := List.any_eq_true.mp hcontra
          have hymem := List.mem_of_mem_filter hy
          have : xs.any (fun y => idOf field y == some s) = true :=
            List.any_eq_true.mpr ⟨y, hymem, hyy⟩
          rw [this] at hany; exact Bool.noConfusion hany
        simpa using this
    · rw [if_neg hp]
      exact hxs

theorem fieldsInsert_lookup_self (k : String) (v : JVal)
    (fs : List (String × JVal)) :
    (fieldsInsert k v fs).lookup k = some v := by
  induction fs with
  | nil => simp [fieldsInsert, List.lookup]
  | cons kv fs ih =>
    obtain ⟨k2, v2⟩ := kv
    by_cases h : (k2 == k) = true
    · simp [fieldsInsert, h, List.lookup]
    · have h' : (k2 == k) = false := by simpa using h
      have hk : (k == k2) = false := by
        have hne : ¬k2 = k := by simpa using h'
        exact beq_eq_false_iff_ne.mpr fun hEq => hne hEq.symm
      simp [fieldsInsert, h', List.lookup, hk, ih]

theorem fieldsInsert_lookup_ne (k k2 : String) (v : JVal)
    (fs : List (String × JVal)) (hne : k2 ≠ k) :
    (fieldsInsert k v fs).lookup k2 = fs.lookup k2 := by
  have hb : (k2 == k) = false := beq_eq_false_iff_ne.mpr hne
  induction fs with
  | nil => simp [fieldsInsert, List.lookup, hb]
  | cons kv fs ih =>
    obtain ⟨k3, v3⟩ := kv
    by_cases h : (k3 == k) = true
    · have h3 : k3 = k := by simpa using h
      subst h3
      simp [fieldsInsert, List.lookup, hb]
    · have h' : (k3 == k) = false := by simpa using h
      by_cases hk : (k2 == k3) = true
      · simp [fieldsInsert, h', List.lookup, hk]
      · have hk' : (k2 == k3) = false := by simpa using hk
        simp [fieldsInsert, h', List.lookup, hk', ih]

theorem lookup_append_single_ne (k k2 : String) (v : JVal)
    (fs : List (String × JVal)) (hne : k2 ≠ k) :
    (fs ++ [(k, v)]).lookup k2 = fs.lookup k2 := by
  have hb : (k2 == k) = false := beq_eq_false_iff_ne.mpr hne
  induction fs with
  | nil => simp [List.lookup, hb]
  | cons kv fs ih =>
    obtain ⟨k3, v3⟩ := kv
    by_cases hk : (k2 == k3) = true
    · simp [List.lookup, hk]
    · have hk' : (k2 == k3) = false := by simpa using hk
      simp [List.lookup, hk', ih]

theorem lookup_append_single_none (k : String) (v : JVal)
    (fs : List (String × JVal)) (h : fs.lookup k = none) :
    (fs ++ [(k, v)]).lookup k = some v := by
  induction fs with
  | nil => simp [List.lookup]
  | cons kv fs ih =>
    obtain ⟨k3, v3⟩ := kv
    by_cases hk : (k == k3) = true
    · simp only [List.lookup, hk] at h
      exact Option.noConfusion h
    · have hk' : (k == k3) = false := by simpa using hk
      simp only [List.lookup, hk'] at h
      simp only [List.cons_append, List.lookup, hk']
      exact ih h

/-- The per-document mutation of `add_artifact_to_project` never touches the
`projectId` binding. -/
theorem addToProjectDoc_idOf (artifactId now : String) (p : JVal) :
    idOf "projectId" (addToProjectDoc artifactId now p) = idOf "projectId" p := by
  cases p with
  | null => rfl
  | bool b => rfl
  | num n => rfl
  | str s => rfl
  | arr l => rfl
  | obj fs =>
    have hne1 : ("projectId" : String) ≠ "artifactIds" := by decide
    have hne2 : ("projectId" : String) ≠ "lastActivityDate" := by decide
    have hne3 : ("projectId" : String) ≠ "updatedAt" := by decide
    simp only [addToProjectDoc, idOf, JVal.getKey]
    congr 1
    rw [fieldsInsert_lookup_ne _ _ _ _ hne3, fieldsInsert_lookup_ne _ _ _ _ hne2,
        fieldsInsert_lookup_ne _ _ _ _ hne1]
    by_cases h : (fs.lookup "artifactIds").isSome
    · simp [h]
    · simp only [h, Bool.false_eq_true, if_false]
      exact lookup_append_single_ne _ _ _ _ hne1

/-- Applying `modifyFirst` with an identity-preserving mutation keeps the sequence of
identity values of the index. -/
theorem modifyFirst_map_idOf (field pid : String) (g : JVal → JVal)
    (hg : ∀ x, idOf field (g x) = idOf field x) (l l2 : List JVal)
    (h : modifyFirst field pid g l = some l2) :
    l2.map (idOf field) = l.map (idOf field) := by
  induction l generalizing l2 with
  | nil => simp [modifyFirst] at h
  | cons x xs ih =>
    unfold modifyFirst at h
    by_cases hx : (idOf field x == some pid) = true
    · rw [if_pos hx] at h
      cases h
      simp [hg]
    · rw [if_neg hx] at h
      match hrec : modifyFirst field pid g xs with
      | some ys =>
        rw [hrec] at h
        cases h
        simp [ih ys hrec]
      | none => rw [hrec] at h; cases h

theorem any_map_gen {α β : Type} (f : α → β) (p : β → Bool) (l : List α) :
    (l.map f).any p = l.any (fun x => p (f x)) := by
  induction l with
  | nil => rfl
  | cons x xs ih => simp [List.any_cons, ih]

/-- The predicate `uniqueIds` only depends on the sequence of identity values. -/
theorem uniqueIds_congr (field : String) (l1 l2 : List JVal)
    (h : l1.map (idOf field) = l2.map (idOf field)) :
    uniqueIds field l1 = uniqueIds field l2 := by
  induction l1 generalizing l2 with
  | nil =>
    cases l2 with
    | nil => rfl
    | cons y ys => simp at h
  | cons x xs ih =>
    cases l2 with
    | nil => simp at h
    | cons y ys =>
      simp only [List.map_cons, List.cons.injEq] at h
      obtain ⟨hhead, htail⟩ := h
      have hany : ∀ s : String,
          (xs.any fun z => idOf field z == some s) =
            (ys.any fun z => idOf field z == some s) := by
        intro s
        have h1 := (any_map_gen (idOf field) (fun o => o == some s) xs).symm
        have h2 := (any_map_gen (idOf field) (fun o => o == some s) ys).symm
        rw [h1, h2, htail]
      unfold uniqueIds
      rw [hhead, ih ys htail]
      congr 1
      match idOf field y with
      | none => rfl
      | some s =>
        show (!xs.any fun z => idOf field z == some s) =
          (!ys.any fun z => idOf field z == some s)
        rw [hany s]

/-- The delete loop removes every entry carrying the deleted id. -/
theorem retainOthers_any_self (field pid : String) (l : List JVal) :
    (retainOthers field pid l).any (fun y => idOf field y == some pid) = false := by
  rw [Bool.eq_false_iff]
  intro h
  obtain ⟨y, hy, hyy⟩ := List.any_eq_true.mp h
  have := List.of_mem_filter hy
  rw [hyy] at this
  exact Bool.noConfusion this

/-- Appending one entry whose id occurs nowhere in a unique index keeps it
unique (the shape of `save_artifact`'s retain-then-push update). -/
theorem uniqueIds_append_single (field s : String) (l : List JVal) (e : JVal)
    (hu : uniqueIds field l = true)
    (habs : l.any (fun y => idOf field y == some s) = false)
    (he : idOf field e = some s) :
    uniqueIds field (l ++ [e]) = true := by
  induction l with
  | nil => simp [uniqueIds, he]
  | cons x xs ih =>
    simp only [List.any_cons, Bool.or_eq_false_iff] at habs
    obtain ⟨hx, hxs⟩ := habs
    rw [List.cons_append]
    unfold uniqueIds
    simp only [Bool.and_eq_true]
    refine ⟨?_, ih (uniqueIds_cons hu) hxs⟩
    match hxid : idOf field x with
    | none => simp
    | some t =>
      show (!(xs ++ [e]).any fun y => idOf field y == some t) = true
      have hne : ¬(idOf field e == some t) = true := by
        intro hcontra
        have ht : s = t := by
          rw [he] at hcontra; simpa using hcontra
        subst ht
        rw [hxid] at hx; simp at hx
      have hxst := uniqueIds_head hu hxid
      simp [List.any_append, hxst, hne]

/-- Entries whose id all differ from the deleted id are untouched. -/
theorem retainOthers_eq_self (field pid : String) (l : List JVal)
    (h : l.all (fun p => !(idOf field p == some pid)) = true) :
    retainOthers field pid l = l := by
  apply List.filter_eq_self.mpr
  intro a ha
  exact List.all_eq_true.mp h a ha

/-- Removing an absent artifact file is a no-op. -/
theorem filesRemoveA_eq_self (id : String) (fs : List (String × JVal))
    (h : fs.lookup id = none) : filesRemoveA id fs = fs := by
  induction fs with
  | nil => rfl
  | cons kv fs ih =>
    obtain ⟨k, v⟩ := kv
    by_cases hk : (id == k) = true
    · simp only [List.lookup, hk] at h
      exact Option.noConfusion h
    · have hk' : (id == k) = false := by simpa using hk
      have hk2 : (k == id) = false := by
        have hne : ¬id = k := by simpa using hk'
        exact beq_eq_false_iff_ne.mpr fun hEq => hne hEq.symm
      simp only [List.lookup, hk'] at h
      simpa [filesRemoveA, List.filter_cons, hk2] using ih h

-- ============================================
-- Claim theorems
-- ============================================

/-- C10: `check_ollama_status` never returns the error variant, and whenever
the PATH lookup finds no ollama executable the returned status has
`installed = false`, `running = false`, `version = none` and an empty model
list, regardless of what the version CLI or the API probe would report. -/
theorem claim_C10_status_uninstalled (env : OllamaEnv) :
    (∃ s, check_ollama_status env = .ok s) ∧
    ∀ (vcli : Option String) (api : ApiTags),
      check_ollama_status ⟨false, vcli, api⟩ =
        .ok ⟨false, false, none, []⟩ := by
  refine ⟨⟨_, rfl⟩, ?_⟩
  intro vcli api
  rfl

/-- C6: each save command succeeds exactly when its input parses as JSON and
carries a string-valued identity field (`packId` / `projectId` / `learnerId`
/ `artifactId`); it fails on malformed JSON or a missing identity field. -/
theorem claim_C6_save_error_conditions (st : FileState) (stL : LibraryState)
    (input : Option JVal) (now : String) :
    okB (save_design_pack st input) = hasStrId "packId" input ∧
    okB (save_local_project st input) = hasStrId "projectId" input ∧
    okB (save_learner_profile st input) = hasStrId "learnerId" input ∧
    okB (save_artifact stL input now) = hasStrId "artifactId" input := by
  cases input with
  | none => exact ⟨rfl, rfl, rfl, rfl⟩
  | some v =>
    refine ⟨?_, ?_, ?_, ?_⟩
    · cases h : idOf "packId" v <;>
        simp [save_design_pack, okB, hasStrId, h]
    · cases h : idOf "projectId" v <;>
        simp [save_local_project, okB, hasStrId, h]
    · cases h : idOf "learnerId" v <;>
        simp [save_learner_profile, okB, hasStrId, h]
    · cases h : idOf "artifactId" v <;>
        simp [save_artifact, okB, hasStrId, h]

/-- C5 counterexample: with the index file absent, `get_library_index` does
not return an empty list — it succeeds with the default index object
(`{version, lastUpdated, artifacts}`), which is not a JSON array at all. -/
theorem claim_C5_counterexample :
    get_library_index .absent "t" = .ok (some (defaultIndex "t")) ∧
    isArr (defaultIndex "t") = false :=
  ⟨rfl, rfl⟩

/-- C5 (amended): with the index file missing, `get_learner_profiles`,
`get_design_packs` and `get_local_projects` successfully return the empty
list, and `get_library_index` successfully returns the default index object
whose `artifacts` collection is empty; none of them returns an error. -/
theorem claim_C5_missing_file_defaults (now : String) :
    get_learner_profiles .absent = .ok (some (.arr [])) ∧
    get_design_packs .absent = .ok (some (.arr [])) ∧
    get_local_projects .absent = .ok (some (.arr [])) ∧
    get_library_index .absent now = .ok (some (defaultIndex now)) ∧
    (defaultIndex now).getKey "artifacts" = some (.arr []) :=
  ⟨rfl, rfl, rfl, rfl, rfl⟩

/-- C7 counterexample: the claim requires a parse failure of an existing
index file's content to surface as an error, but `save_design_pack` on an
index file with unparseable content succeeds, silently replacing the
content with the array holding just the saved pack. -/
theorem claim_C7_counterexample :
    save_design_pack (.file none) (some (.obj [("packId", .str "p1")])) =
      .ok (.file (some (.arr [.obj [("packId", .str "p1")]]))) ∧
    okB (save_design_pack (.file none) (some (.obj [("packId", .str "p1")]))) =
      true := by
  constructor
  · rfl
  · rfl

/-- C7 (amended): parse failures of a command's own input are wrapped into
an error string and returned, but a parse failure of an existing index
file's content is handled silently: the commands behave exactly as if the
file held the empty collection, and succeed. -/
theorem claim_C7_silent_index_default (st : FileState) (v : JVal)
    (pid : String) :
    okB (save_design_pack st none) = false ∧
    okB (save_local_project st none) = false ∧
    okB (save_learner_profile st none) = false ∧
    save_design_pack (.file none) (some v) = save_design_pack .absent (some v) ∧
    save_local_project (.file none) (some v) = save_local_project .absent (some v) ∧
    save_learner_profile (.file none) (some v) = save_learner_profile .absent (some v) ∧
    delete_design_pack (.file none) pid = .ok (.file (some (.arr []))) ∧
    delete_local_project (.file none) pid = .ok (.file (some (.arr []))) ∧
    delete_learner_profile (.file none) pid = .ok (.file (some (.arr []))) := by
  refine ⟨rfl, rfl, rfl, ?_, ?_, ?_, rfl, rfl, rfl⟩
  · cases h : idOf "packId" v <;> simp [save_design_pack, h, parseVec]
  · cases h : idOf "projectId" v <;> simp [save_local_project, h, parseVec]
  · cases h : idOf "learnerId" v <;> simp [save_learner_profile, h, parseVec]

/-- Common core of the upsert idempotence claim, parametric in the identity
field: under the uniqueness invariant, upserting twice equals upserting
once, and the entries carrying the saved id are exactly the saved doc. -/
theorem upsert_core (field pid : String) (v : JVal) (l : List JVal)
    (hv : idOf field v = some pid) (hu : uniqueIds field l = true) :
    upsertList field pid v (upsertList field pid v l) =
      upsertList field pid v l ∧
    (upsertList field pid v l).filter (fun p => idOf field p == some pid) =
      [v] :=
  ⟨upsertList_idem field pid v hv l,
   upsertList_filter_eq field pid v hv l (countId_le_one_of_uniqueIds hu)⟩

/-- C1: for the design-pack, local-project and learner-profile stores, under
the index invariant (unique identifiers) saving a document twice in
succession succeeds, produces the same index state as saving it once, and
the resulting index holds exactly one entry carrying the document's
identity value — namely the document passed to the latest save. -/
theorem claim_C1_upsert_idempotent :
    (∀ (st : FileState) (v : JVal) (pid : String),
      idOf "packId" v = some pid →
      uniqueIds "packId" (parseVec st) = true →
      ∃ st2, save_design_pack st (some v) = .ok st2 ∧
        save_design_pack st2 (some v) = .ok st2 ∧
        (parseVec st2).filter (fun p => idOf "packId" p == some pid) = [v]) ∧
    (∀ (st : FileState) (v : JVal) (pid : String),
      idOf "projectId" v = some pid →
      uniqueIds "projectId" (parseVec st) = true →
      ∃ st2, save_local_project st (some v) = .ok st2 ∧
        save_local_project st2 (some v) = .ok st2 ∧
        (parseVec st2).filter (fun p => idOf "projectId" p == some pid) = [v]) ∧
    (∀ (st : FileState) (v : JVal) (pid : String),
      idOf "learnerId" v = some pid →
      uniqueIds "learnerId" (parseVec st) = true →
      ∃ st2, save_learner_profile st (some v) = .ok st2 ∧
        save_learner_profile st2 (some v) = .ok st2 ∧
        (parseVec st2).filter (fun p => idOf "learnerId" p == some pid) = [v]) := by
  refine ⟨?_, ?_, ?_⟩
  · intro st v pid hv hu
    obtain ⟨hidem, hfil⟩ := upsert_core "packId" pid v (parseVec st) hv hu
    refine ⟨.file (some (.arr (upsertList "packId" pid v (parseVec st)))),
      ?_, ?_, ?_⟩
    · simp [save_design_pack, hv]
    · simp only [save_design_pack, hv]
      rw [show parseVec (.file (some (.arr (upsertList "packId" pid v (parseVec st))))) =
        upsertList "packId" pid v (parseVec st) from rfl, hidem]
    · simpa [parseVec] using hfil
  · intro st v pid hv hu
    obtain ⟨hidem, hfil⟩ := upsert_core "projectId" pid v (parseVec st) hv hu
    refine ⟨.file (some (.arr (upsertList "projectId" pid v (parseVec st)))),
      ?_, ?_, ?_⟩
    · simp [save_local_project, hv]
    · simp only [save_local_project, hv]
      rw [show parseVec (.file (some (.arr (upsertList "projectId" pid v (parseVec st))))) =
        upsertList "projectId" pid v (parseVec st) from rfl, hidem]
    · simpa [parseVec] using hfil
  · intro st v pid hv hu
    obtain ⟨hidem, hfil⟩ := upsert_core "learnerId" pid v (parseVec st) hv hu
    refine ⟨.file (some (.arr (upsertList "learnerId" pid v (parseVec st)))),
      ?_, ?_, ?_⟩
    · simp [save_learner_profile, hv]
    · simp only [save_learner_profile, hv]
      rw [show parseVec (.file (some (.arr (upsertList "learnerId" pid v (parseVec st))))) =
        upsertList "learnerId" pid v (parseVec st) from rfl, hidem]
    · simpa [parseVec] using hfil

theorem getKey_some_obj {w : JVal} {k : String} {a : JVal}
    (h : w.getKey k = some a) : ∃ fs, w = .obj fs := by
  cases w with
  | obj fs => exact ⟨fs, rfl⟩
  | null => simp [JVal.getKey] at h
  | bool b => simp [JVal.getKey] at h
  | num n => simp [JVal.getKey] at h
  | str s => simp [JVal.getKey] at h
  | arr l => simp [JVal.getKey] at h

theorem setKey_getKey_ne (k k2 : String) (v w : JVal) (hne : k2 ≠ k) :
    (setKey k v w).getKey k2 = w.getKey k2 := by
  cases w with
  | obj fs => simpa [setKey, JVal.getKey] using fieldsInsert_lookup_ne k k2 v fs hne
  | null => rfl
  | bool b => rfl
  | num n => rfl
  | str s => rfl
  | arr l => rfl

theorem setKey_getKey_self (k : String) (v : JVal) (fs : List (String × JVal)) :
    (setKey k v (.obj fs)).getKey k = some v := by
  simpa [setKey, JVal.getKey] using fieldsInsert_lookup_self k v fs

theorem double_set_getKey (fs : List (String × JVal)) (b u : JVal) :
    (setKey "lastUpdated" u
      (setKey "artifacts" b (.obj fs))).getKey "artifacts" = some b := by
  rw [setKey_getKey_ne _ _ _ _ (by decide)]
  exact setKey_getKey_self _ _ _

/-- C1 witness: the idempotent upsert at a concrete pack saved onto a
concrete valid index state. -/
theorem claim_C1_witness :
    idOf "packId" (.obj [("packId", .str "x"), ("title", .str "a")]) = some "x" ∧
    uniqueIds "packId"
      (parseVec (.file (some (.arr [.obj [("packId", .str "x")]])))) = true ∧
    ∃ st2,
      save_design_pack (.file (some (.arr [.obj [("packId", .str "x")]])))
        (some (.obj [("packId", .str "x"), ("title", .str "a")])) = .ok st2 ∧
      save_design_pack st2
        (some (.obj [("packId", .str "x"), ("title", .str "a")])) = .ok st2 ∧
      (parseVec st2).filter
        (fun p => idOf "packId" p == some "x") =
          [.obj [("packId", .str "x"), ("title", .str "a")]] :=
  ⟨by decide, by decide,
   claim_C1_upsert_idempotent.1
     (.file (some (.arr [.obj [("packId", .str "x")]])))
     (.obj [("packId", .str "x"), ("title", .str "a")]) "x"
     (by decide) (by decide)⟩

/-- C4: for every storage component, deleting an identifier that no index
entry carries (including when the index file is absent or unparseable)
succeeds and leaves the stored entries unchanged; for the library the index
entries are unchanged, and the file store is untouched whenever the
identifier's content file is absent as well. -/
theorem claim_C4_delete_absent_noop :
    (∀ (st : FileState) (pid : String),
      (parseVec st).all (fun p => !(idOf "packId" p == some pid)) = true →
      ∃ st2, delete_design_pack st pid = .ok st2 ∧ parseVec st2 = parseVec st) ∧
    (∀ (st : FileState) (pid : String),
      (parseVec st).all (fun p => !(idOf "projectId" p == some pid)) = true →
      ∃ st2, delete_local_project st pid = .ok st2 ∧ parseVec st2 = parseVec st) ∧
    (∀ (st : FileState) (pid : String),
      (parseVec st).all (fun p => !(idOf "learnerId" p == some pid)) = true →
      ∃ st2, delete_learner_profile st pid = .ok st2 ∧ parseVec st2 = parseVec st) ∧
    (∀ (stL : LibraryState) (aid now : String),
      (libEntries stL).all (fun p => !(idOf "artifactId" p == some aid)) = true →
      ∃ st2, delete_artifact stL aid now = .ok st2 ∧
        libEntries st2 = libEntries stL ∧
        st2.files = filesRemoveA aid stL.files ∧
        (stL.files.lookup aid = none → st2.files = stL.files)) := by
  refine ⟨?_, ?_, ?_, ?_⟩
  · intro st pid h
    cases st with
    | absent => exact ⟨.absent, rfl, rfl⟩
    | file j =>
      refine ⟨_, rfl, ?_⟩
      show retainOthers "packId" pid (parseVec (.file j)) = parseVec (.file j)
      exact retainOthers_eq_self _ _ _ h
  · intro st pid h
    cases st with
    | absent => exact ⟨.absent, rfl, rfl⟩
    | file j =>
      refine ⟨_, rfl, ?_⟩
      show retainOthers "projectId" pid (parseVec (.file j)) = parseVec (.file j)
      exact retainOthers_eq_self _ _ _ h
  · intro st pid h
    cases st with
    | absent => exact ⟨.absent, rfl, rfl⟩
    | file j =>
      refine ⟨_, rfl, ?_⟩
      show retainOthers "learnerId" pid (parseVec (.file j)) = parseVec (.file j)
      exact retainOthers_eq_self _ _ _ h
  · intro stL aid now h
    obtain ⟨files, index⟩ := stL
    cases index with
    | absent =>
      refine ⟨⟨filesRemoveA aid files, .absent⟩, rfl, rfl, rfl, ?_⟩
      intro hnone
      show filesRemoveA aid files = files
      exact filesRemoveA_eq_self _ _ hnone
    | file j =>
      cases j with
      | none =>
        refine ⟨⟨filesRemoveA aid files,
          .file (some (setKey "lastUpdated" (.str now)
            (setKey "artifacts" (.arr []) (defaultIndex now))))⟩, rfl, ?_, rfl, ?_⟩
        · show libEntries _ = libEntries _
          simp [libEntries, defaultIndex, setKey, JVal.getKey, fieldsInsert,
            List.lookup]
        · intro hnone
          show filesRemoveA aid files = files
          exact filesRemoveA_eq_self _ _ hnone
      | some idx0 =>
        cases hk : idx0.getKey "artifacts" with
        | none =>
          refine ⟨⟨filesRemoveA aid files,
            .file (some (setKey "lastUpdated" (.str now) idx0))⟩, ?_, ?_, rfl, ?_⟩
          · simp [delete_artifact, hk]
          · simp [libEntries, setKey_getKey_ne _ _ _ _ (by decide : ("artifacts" : String) ≠ "lastUpdated"), hk]
          · intro hnone
            show filesRemoveA aid files = files
            exact filesRemoveA_eq_self _ _ hnone
        | some v =>
          cases v with
          | arr l =>
            obtain ⟨fs, hfs⟩ := getKey_some_obj hk
            subst hfs
            have hl : libEntries ⟨files, .file (some (.obj fs))⟩ = l := by
              simp [libEntries, hk]
            rw [hl] at h
            have hret : retainOthers "artifactId" aid l = l :=
              retainOthers_eq_self _ _ _ h
            refine ⟨⟨filesRemoveA aid files,
              .file (some (setKey "lastUpdated" (.str now)
                (setKey "artifacts" (.arr (retainOthers "artifactId" aid l))
                  (.obj fs))))⟩, ?_, ?_, rfl, ?_⟩
            · simp [delete_artifact, hk]
            · simp [libEntries, double_set_getKey, hret, hk]
            · intro hnone
              show filesRemoveA aid files = files
              exact filesRemoveA_eq_self _ _ hnone
          | null =>
            refine ⟨⟨filesRemoveA aid files,
              .file (some (setKey "lastUpdated" (.str now) idx0))⟩, ?_, ?_, rfl, ?_⟩
            · simp [delete_artifact, hk]
            · simp [libEntries, setKey_getKey_ne _ _ _ _
                (by decide : ("artifacts" : String) ≠ "lastUpdated"), hk]
            · intro hnone
              show filesRemoveA aid files = files
              exact filesRemoveA_eq_self _ _ hnone
          | bool b =>
            refine ⟨⟨filesRemoveA aid files,
              .file (some (setKey "lastUpdated" (.str now) idx0))⟩, ?_, ?_, rfl, ?_⟩
            · simp [delete_artifact, hk]
            · simp [libEntries, setKey_getKey_ne _ _ _ _
                (by decide : ("artifacts" : String) ≠ "lastUpdated"), hk]
            · intro hnone
              show filesRemoveA aid files = files
              exact filesRemoveA_eq_self _ _ hnone
          | num n2 =>
            refine ⟨⟨filesRemoveA aid files,
              .file (some (setKey "lastUpdated" (.str now) idx0))⟩, ?_, ?_, rfl, ?_⟩
            · simp [delete_artifact, hk]
            · simp [libEntries, setKey_getKey_ne _ _ _ _
                (by decide : ("artifacts" : String) ≠ "lastUpdated"), hk]
            · intro hnone
              show filesRemoveA aid files = files
              exact filesRemoveA_eq_self _ _ hnone
          | str s2 =>
            refine ⟨⟨filesRemoveA aid files,
              .file (some (setKey "lastUpdated" (.str now) idx0))⟩, ?_, ?_, rfl, ?_⟩
            · simp [delete_artifact, hk]
            · simp [libEntries, setKey_getKey_ne _ _ _ _
                (by decide : ("artifacts" : String) ≠ "lastUpdated"), hk]
            · intro hnone
              show filesRemoveA aid files = files
              exact filesRemoveA_eq_self _ _ hnone
          | obj fs2 =>
            refine ⟨⟨filesRemoveA aid files,
              .file (some (setKey "lastUpdated" (.str now) idx0))⟩, ?_, ?_, rfl, ?_⟩
            · simp [delete_artifact, hk]
            · simp [libEntries, setKey_getKey_ne _ _ _ _
                (by decide : ("artifacts" : String) ≠ "lastUpdated"), hk]
            · intro hnone
              show filesRemoveA aid files = files
              exact filesRemoveA_eq_self _ _ hnone

/-- C4 witness: deleting an id absent from a concrete design-pack index and
from a concrete library succeeds and changes nothing. -/
theorem claim_C4_witness :
    ((parseVec (.file (some (.arr [.obj [("packId", .str "a")]])))).all
      (fun p => !(idOf "packId" p == some "b")) = true ∧
     ∃ st2, delete_design_pack
        (.file (some (.arr [.obj [("packId", .str "a")]]))) "b" = .ok st2 ∧
      parseVec st2 = parseVec (.file (some (.arr [.obj [("packId", .str "a")]])))) ∧
    ((libEntries ⟨[("f1", .null)], .absent⟩).all
      (fun p => !(idOf "artifactId" p == some "a")) = true ∧
     ∃ st2, delete_artifact ⟨[("f1", .null)], .absent⟩ "a" "t" = .ok st2 ∧
      libEntries st2 = libEntries ⟨[("f1", .null)], .absent⟩ ∧
      st2.files = filesRemoveA "a" [("f1", .null)] ∧
      (([("f1", JVal.null)].lookup "a" = none) →
        st2.files = [("f1", .null)])) :=
  ⟨⟨by decide, claim_C4_delete_absent_noop.1 _ "b" (by decide)⟩,
   ⟨by decide, claim_C4_delete_absent_noop.2.2.2 ⟨[("f1", .null)], .absent⟩ "a" "t" (by decide)⟩⟩

/-- C8: each get-single command returns its "not found" error exactly when
no stored entity carries the identifier (in particular when the backing
file is absent), and every successful result is a stored entity carrying
the identifier. -/
theorem claim_C8_get_single_not_found :
    (∀ (st : FileState) (pid : String),
      ((∃ e, get_design_pack st pid = .error e) ↔
        ∀ p ∈ parseVec st, idOf "packId" p ≠ some pid) ∧
      (∀ p, get_design_pack st pid = .ok p →
        p ∈ parseVec st ∧ idOf "packId" p = some pid)) ∧
    (∀ (st : FileState) (pid : String),
      ((∃ e, get_local_project st pid = .error e) ↔
        ∀ p ∈ parseVec st, idOf "projectId" p ≠ some pid) ∧
      (∀ p, get_local_project st pid = .ok p →
        p ∈ parseVec st ∧ idOf "projectId" p = some pid)) ∧
    (∀ (stL : LibraryState) (aid : String),
      ((∃ e, get_artifact stL aid = .error e) ↔ stL.files.lookup aid = none) ∧
      (∀ v, get_artifact stL aid = .ok v → stL.files.lookup aid = some v)) := by
  refine ⟨?_, ?_, ?_⟩
  · intro st pid
    constructor
    · constructor
      · rintro ⟨e, he⟩ p hp hid
        cases st with
        | absent => simp [parseVec] at hp
        | file j =>
          cases hf : (parseVec (.file j)).find?
              (fun q => idOf "packId" q == some pid) with
          | some q => simp [get_design_pack, hf] at he
          | none =>
            have := List.find?_eq_none.mp hf p hp
            simp [hid] at this
      · intro hall
        cases st with
        | absent => exact ⟨_, rfl⟩
        | file j =>
          have hf : (parseVec (.file j)).find?
              (fun q => idOf "packId" q == some pid) = none := by
            apply List.find?_eq_none.mpr
            intro x hx
            simp [hall x hx]
          exact ⟨"Design pack not found: " ++ pid, by simp [get_design_pack, hf]⟩
    · intro p hp
      cases st with
      | absent => simp [get_design_pack] at hp
      | file j =>
        cases hf : (parseVec (.file j)).find?
            (fun q => idOf "packId" q == some pid) with
        | some q =>
          simp only [get_design_pack, hf, Except.ok.injEq] at hp
          subst hp
          exact ⟨List.mem_of_find?_eq_some hf, by simpa using List.find?_some hf⟩
        | none => simp [get_design_pack, hf] at hp
  · intro st pid
    constructor
    · constructor
      · rintro ⟨e, he⟩ p hp hid
        cases st with
        | absent => simp [parseVec] at hp
        | file j =>
          cases hf : (parseVec (.file j)).find?
              (fun q => idOf "projectId" q == some pid) with
          | some q => simp [get_local_project, hf] at he
          | none =>
            have := List.find?_eq_none.mp hf p hp
            simp [hid] at this
      · intro hall
        cases st with
        | absent => exact ⟨_, rfl⟩
        | file j =>
          have hf : (parseVec (.file j)).find?
              (fun q => idOf "projectId" q == some pid) = none := by
            apply List.find?_eq_none.mpr
            intro x hx
            simp [hall x hx]
          exact ⟨"Project not found: " ++ pid, by simp [get_local_project, hf]⟩
    · intro p hp
      cases st with
      | absent => simp [get_local_project] at hp
      | file j =>
        cases hf : (parseVec (.file j)).find?
            (fun q => idOf "projectId" q == some pid) with
        | some q =>
          simp only [get_local_project, hf, Except.ok.injEq] at hp
          subst hp
          exact ⟨List.mem_of_find?_eq_some hf, by simpa using List.find?_some hf⟩
        | none => simp [get_local_project, hf] at hp
  · intro stL aid
    constructor
    · constructor
      · rintro ⟨e, he⟩
        cases hf : stL.files.lookup aid with
        | some v => simp [get_artifact, hf] at he
        | none => rfl
      · intro hnone
        exact ⟨"Artifact not found: " ++ aid, by simp [get_artifact, hnone]⟩
    · intro v hv
      cases hf : stL.files.lookup aid with
      | some w =>
        simp only [get_artifact, hf, Except.ok.injEq] at hv
        subst hv
        rfl
      | none => simp [get_artifact, hf] at hv

/-- C8 witness: a concrete stored pack is found, and a concrete missing id
yields the not-found error. -/
theorem claim_C8_witness :
    (get_design_pack (.file (some (.arr [.obj [("packId", .str "a")]]))) "a" =
      .ok (.obj [("packId", .str "a")]) ∧
     (.obj [("packId", .str "a")]) ∈
        parseVec (.file (some (.arr [.obj [("packId", .str "a")]]))) ∧
     idOf "packId" (.obj [("packId", .str "a")]) = some "a") ∧
    (∃ e, get_design_pack (.file (some (.arr [.obj [("packId", .str "a")]]))) "b" =
      .error e) :=
  ⟨⟨rfl, (claim_C8_get_single_not_found.1
      (.file (some (.arr [.obj [("packId", .str "a")]]))) "a").2
      (.obj [("packId", .str "a")]) rfl⟩,
   (claim_C8_get_single_not_found.1
      (.file (some (.arr [.obj [("packId", .str "a")]]))) "b").1.mpr
      (by decide)⟩

theorem indexEntry_getKey (v : JVal) :
    (indexEntry v).getKey "artifactId" =
      some ((v.getKey "artifactId").getD .null) := rfl

theorem indexEntry_idOf (v : JVal) (aid : String)
    (hv : idOf "artifactId" v = some aid) :
    idOf "artifactId" (indexEntry v) = some aid := by
  unfold idOf at hv ⊢
  rw [indexEntry_getKey]
  cases hk : v.getKey "artifactId" with
  | none => rw [hk] at hv; exact Option.noConfusion hv
  | some w =>
    rw [hk] at hv
    cases w with
    | str s => simpa using hv
    | null => simp [JVal.asStr] at hv
    | bool b => simp [JVal.asStr] at hv
    | num n => simp [JVal.asStr] at hv
    | arr l => simp [JVal.asStr] at hv
    | obj fs => simp [JVal.asStr] at hv

/-- C3: starting from an index whose identifiers are unique, every storage
operation — the three upsert saves, the three deletes,
`add_artifact_to_project`, and `save_artifact`'s index update — leaves the
identifiers unique. -/
theorem claim_C3_uniqueness_preserved :
    (∀ (st : FileState) (v : JVal) (pid : String),
      idOf "packId" v = some pid →
      uniqueIds "packId" (parseVec st) = true →
      ∃ st2, save_design_pack st (some v) = .ok st2 ∧
        uniqueIds "packId" (parseVec st2) = true) ∧
    (∀ (st : FileState) (v : JVal) (pid : String),
      idOf "projectId" v = some pid →
      uniqueIds "projectId" (parseVec st) = true →
      ∃ st2, save_local_project st (some v) = .ok st2 ∧
        uniqueIds "projectId" (parseVec st2) = true) ∧
    (∀ (st : FileState) (v : JVal) (pid : String),
      idOf "learnerId" v = some pid →
      uniqueIds "learnerId" (parseVec st) = true →
      ∃ st2, save_learner_profile st (some v) = .ok st2 ∧
        uniqueIds "learnerId" (parseVec st2) = true) ∧
    (∀ (st : FileState) (pid : String),
      uniqueIds "packId" (parseVec st) = true →
      ∃ st2, delete_design_pack st pid = .ok st2 ∧
        uniqueIds "packId" (parseVec st2) = true) ∧
    (∀ (st : FileState) (pid : String),
      uniqueIds "projectId" (parseVec st) = true →
      ∃ st2, delete_local_project st pid = .ok st2 ∧
        uniqueIds "projectId" (parseVec st2) = true) ∧
    (∀ (st : FileState) (pid : String),
      uniqueIds "learnerId" (parseVec st) = true →
      ∃ st2, delete_learner_profile st pid = .ok st2 ∧
        uniqueIds "learnerId" (parseVec st2) = true) ∧
    (∀ (st st2 : FileState) (pid aid now : String),
      add_artifact_to_project st pid aid now = .ok st2 →
      uniqueIds "projectId" (parseVec st) = true →
      uniqueIds "projectId" (parseVec st2) = true) ∧
    (∀ (stL : LibraryState) (v : JVal) (aid now : String),
      idOf "artifactId" v = some aid →
      uniqueIds "artifactId" (libEntries stL) = true →
      ∃ st2, save_artifact stL (some v) now = .ok st2 ∧
        uniqueIds "artifactId" (libEntries st2) = true) := by
  refine ⟨?_, ?_, ?_, ?_, ?_, ?_, ?_, ?_⟩
  · intro st v pid hv hu
    refine ⟨.file (some (.arr (upsertList "packId" pid v (parseVec st)))),
      by simp [save_design_pack, hv], ?_⟩
    exact upsertList_uniqueIds _ _ _ hv _ hu
  · intro st v pid hv hu
    refine ⟨.file (some (.arr (upsertList "projectId" pid v (parseVec st)))),
      by simp [save_local_project, hv], ?_⟩
    exact upsertList_uniqueIds _ _ _ hv _ hu
  · intro st v pid hv hu
    refine ⟨.file (some (.arr (upsertList "learnerId" pid v (parseVec st)))),
      by simp [save_learner_profile, hv], ?_⟩
    exact upsertList_uniqueIds _ _ _ hv _ hu
  · intro st pid hu
    cases st with
    | absent => exact ⟨.absent, rfl, rfl⟩
    | file j =>
      refine ⟨.file (some (.arr (retainOthers "packId" pid (parseVec (.file j))))),
        rfl, ?_⟩
      exact filter_uniqueIds _ _ _ hu
  · intro st pid hu
    cases st with
    | absent => exact ⟨.absent, rfl, rfl⟩
    | file j =>
      refine ⟨.file (some (.arr (retainOthers "projectId" pid (parseVec (.file j))))),
        rfl, ?_⟩
      exact filter_uniqueIds _ _ _ hu
  · intro st pid hu
    cases st with
    | absent => exact ⟨.absent, rfl, rfl⟩
    | file j =>
      refine ⟨.file (some (.arr (retainOthers "learnerId" pid (parseVec (.file j))))),
        rfl, ?_⟩
      exact filter_uniqueIds _ _ _ hu
  · intro st st2 pid aid now hok hu
    cases st with
    | absent => simp [add_artifact_to_project] at hok
    | file j =>
      cases hm : modifyFirst "projectId" pid (addToProjectDoc aid now)
          (parseVec (.file j)) with
      | none => simp [add_artifact_to_project, hm] at hok
      | some l2 =>
        simp only [add_artifact_to_project, hm, Except.ok.injEq] at hok
        subst hok
        show uniqueIds "projectId" l2 = true
        have hmap := modifyFirst_map_idOf "projectId" pid (addToProjectDoc aid now)
          (addToProjectDoc_idOf aid now) (parseVec (.file j)) l2 hm
        rw [uniqueIds_congr "projectId" l2 (parseVec (.file j)) hmap]
        exact hu
  · intro stL v aid now hv hu
    obtain ⟨files, index⟩ := stL
    have hentry := indexEntry_idOf v aid hv
    cases index with
    | absent =>
      refine ⟨⟨filesInsertA aid v files, .file (some (setKey "lastUpdated" (.str now)
          (setKey "artifacts"
            (.arr (retainOthers "artifactId" aid [] ++ [indexEntry v]))
            (defaultIndex now))))⟩,
        by simp [save_artifact, hv, defaultIndex, JVal.getKey, List.lookup], ?_⟩
      show uniqueIds "artifactId" (libEntries _) = true
      simp only [libEntries, defaultIndex, double_set_getKey]
      exact uniqueIds_append_single "artifactId" aid _ _ rfl rfl hentry
    | file j =>
      cases j with
      | none =>
        refine ⟨⟨filesInsertA aid v files, .file (some (setKey "lastUpdated" (.str now)
            (setKey "artifacts"
              (.arr (retainOthers "artifactId" aid [] ++ [indexEntry v]))
              (defaultIndex now))))⟩,
          by simp [save_artifact, hv, defaultIndex, JVal.getKey, List.lookup], ?_⟩
        show uniqueIds "artifactId" (libEntries _) = true
        simp only [libEntries, defaultIndex, double_set_getKey]
        exact uniqueIds_append_single "artifactId" aid _ _ rfl rfl hentry
      | some idx0 =>
        cases hk : idx0.getKey "artifacts" with
        | none =>
          refine ⟨⟨filesInsertA aid v files,
            .file (some (setKey "lastUpdated" (.str now) idx0))⟩,
            by simp [save_artifact, hv, hk], ?_⟩
          simp [libEntries, uniqueIds, setKey_getKey_ne _ _ _ _
            (by decide : ("artifacts" : String) ≠ "lastUpdated"), hk]
        | some w =>
          cases w with
          | arr l =>
            obtain ⟨fs, hfs⟩ := getKey_some_obj hk
            subst hfs
            have hl : libEntries ⟨files, .file (some (.obj fs))⟩ = l := by
              simp [libEntries, hk]
            rw [hl] at hu
            refine ⟨⟨filesInsertA aid v files,
              .file (some (setKey "lastUpdated" (.str now)
                (setKey "artifacts"
                  (.arr (retainOthers "artifactId" aid l ++ [indexEntry v]))
                  (.obj fs))))⟩, by simp [save_artifact, hv, hk], ?_⟩
            show uniqueIds "artifactId" (libEntries _) = true
            simp only [libEntries, double_set_getKey]
            exact uniqueIds_append_single "artifactId" aid _ _
              (filter_uniqueIds _ _ _ hu) (retainOthers_any_self _ _ _) hentry
          | null =>
            refine ⟨⟨filesInsertA aid v files,
              .file (some (setKey "lastUpdated" (.str now) idx0))⟩,
              by simp [save_artifact, hv, hk], ?_⟩
            simp [libEntries, uniqueIds, setKey_getKey_ne _ _ _ _
              (by decide : ("artifacts" : String) ≠ "lastUpdated"), hk]
          | bool b =>
            refine ⟨⟨filesInsertA aid v files,
              .file (some (setKey "lastUpdated" (.str now) idx0))⟩,
              by simp [save_artifact, hv, hk], ?_⟩
            simp [libEntries, uniqueIds, setKey_getKey_ne _ _ _ _
              (by decide : ("artifacts" : String) ≠ "lastUpdated"), hk]
          | num n2 =>
            refine ⟨⟨filesInsertA aid v files,
              .file (some (setKey "lastUpdated" (.str now) idx0))⟩,
              by simp [save_artifact, hv, hk], ?_⟩
            simp [libEntries, uniqueIds, setKey_getKey_ne _ _ _ _
              (by decide : ("artifacts" : String) ≠ "lastUpdated"), hk]
          | str s2 =>
            refine ⟨⟨filesInsertA aid v files,
              .file (some (setKey "lastUpdated" (.str now) idx0))⟩,
              by simp [save_artifact, hv, hk], ?_⟩
            simp [libEntries, uniqueIds, setKey_getKey_ne _ _ _ _
              (by decide : ("artifacts" : String) ≠ "lastUpdated"), hk]
          | obj fs2 =>
            refine ⟨⟨filesInsertA aid v files,
              .file (some (setKey "lastUpdated" (.str now) idx0))⟩,
              by simp [save_artifact, hv, hk], ?_⟩
            simp [libEntries, uniqueIds, setKey_getKey_ne _ _ _ _
              (by decide : ("artifacts" : String) ≠ "lastUpdated"), hk]

/-- C3 witness: saving a concrete pack into a concrete unique index keeps
identifiers unique. -/
theorem claim_C3_witness :
    idOf "packId" (.obj [("packId", .str "x")]) = some "x" ∧
    uniqueIds "packId"
      (parseVec (.file (some (.arr [.obj [("packId", .str "y")]])))) = true ∧
    ∃ st2, save_design_pack (.file (some (.arr [.obj [("packId", .str "y")]])))
        (some (.obj [("packId", .str "x")])) = .ok st2 ∧
      uniqueIds "packId" (parseVec st2) = true :=
  ⟨by decide, by decide,
   claim_C3_uniqueness_preserved.1 (.file (some (.arr [.obj [("packId", .str "y")]])))
     (.obj [("packId", .str "x")]) "x" (by decide) (by decide)⟩

theorem modifyFirst_eq_none (field pid : String) (g : JVal → JVal)
    (l : List JVal) :
    modifyFirst field pid g l = none ↔
      l.all (fun p => !(idOf field p == some pid)) = true := by
  induction l with
  | nil => simp [modifyFirst]
  | cons x xs ih =>
    by_cases hx : (idOf field x == some pid) = true
    · simp [modifyFirst, hx]
    · have hx' : (idOf field x == some pid) = false := by simpa using hx
      cases hm : modifyFirst field pid g xs with
      | some ys =>
        simp only [modifyFirst, hx', Bool.false_eq_true, if_false, hm,
          List.all_cons, Bool.and_eq_true]
        constructor
        · intro hcontra; exact Option.noConfusion hcontra
        · rintro ⟨h1, hall⟩
          have h2 := ih.mpr hall
          rw [h2] at hm
          exact Option.noConfusion hm
      | none =>
        simp [modifyFirst, hx', hm, List.all_cons, ih.mp hm]

theorem addToProjectDoc_ids_arr (aid now : String) (fs : List (String × JVal))
    (xs : List JVal) (h : fs.lookup "artifactIds" = some (.arr xs)) :
    (addToProjectDoc aid now (.obj fs)).getKey "artifactIds" =
      some (.arr (if xs.any (isStrVal aid) then xs else xs ++ [.str aid])) := by
  have hsome : (fs.lookup "artifactIds").isSome = true := by simp [h]
  simp only [addToProjectDoc, JVal.getKey, hsome, if_true, h, Option.getD_some]
  rw [fieldsInsert_lookup_ne _ _ _ _
      (by decide : ("artifactIds" : String) ≠ "updatedAt"),
    fieldsInsert_lookup_ne _ _ _ _
      (by decide : ("artifactIds" : String) ≠ "lastActivityDate"),
    fieldsInsert_lookup_self]
  simp [h]

theorem addToProjectDoc_ids_absent (aid now : String)
    (fs : List (String × JVal)) (h : fs.lookup "artifactIds" = none) :
    (addToProjectDoc aid now (.obj fs)).getKey "artifactIds" =
      some (.arr [.str aid]) := by
  have hsome : (fs.lookup "artifactIds").isSome = false := by simp [h]
  have happ := lookup_append_single_none "artifactIds" (.arr []) fs h
  simp only [addToProjectDoc, JVal.getKey, hsome, Bool.false_eq_true, if_false,
    happ, Option.getD_some, List.any_nil, List.nil_append, Bool.false_eq_true]
  rw [fieldsInsert_lookup_ne _ _ _ _
      (by decide : ("artifactIds" : String) ≠ "updatedAt"),
    fieldsInsert_lookup_ne _ _ _ _
      (by decide : ("artifactIds" : String) ≠ "lastActivityDate"),
    fieldsInsert_lookup_self]

theorem addToProjectDoc_ids_other (aid now : String)
    (fs : List (String × JVal)) (v : JVal)
    (h : fs.lookup "artifactIds" = some v) (hv : isArr v = false) :
    (addToProjectDoc aid now (.obj fs)).getKey "artifactIds" = some v := by
  have hsome : (fs.lookup "artifactIds").isSome = true := by simp [h]
  cases v with
  | arr l => simp [isArr] at hv
  | null =>
    simp only [addToProjectDoc, JVal.getKey, hsome, if_true]
    rw [fieldsInsert_lookup_ne _ _ _ _
        (by decide : ("artifactIds" : String) ≠ "updatedAt"),
      fieldsInsert_lookup_ne _ _ _ _
        (by decide : ("artifactIds" : String) ≠ "lastActivityDate"),
      fieldsInsert_lookup_self]
    simp [h]
  | bool b =>
    simp only [addToProjectDoc, JVal.getKey, hsome, if_true]
    rw [fieldsInsert_lookup_ne _ _ _ _
        (by decide : ("artifactIds" : String) ≠ "updatedAt"),
      fieldsInsert_lookup_ne _ _ _ _
        (by decide : ("artifactIds" : String) ≠ "lastActivityDate"),
      fieldsInsert_lookup_self]
    simp [h]
  | num n =>
    simp only [addToProjectDoc, JVal.getKey, hsome, if_true]
    rw [fieldsInsert_lookup_ne _ _ _ _
        (by decide : ("artifactIds" : String) ≠ "updatedAt"),
      fieldsInsert_lookup_ne _ _ _ _
        (by decide : ("artifactIds" : String) ≠ "lastActivityDate"),
      fieldsInsert_lookup_self]
    simp [h]
  | str s =>
    simp only [addToProjectDoc, JVal.getKey, hsome, if_true]
    rw [fieldsInsert_lookup_ne _ _ _ _
        (by decide : ("artifactIds" : String) ≠ "updatedAt"),
      fieldsInsert_lookup_ne _ _ _ _
        (by decide : ("artifactIds" : String) ≠ "lastActivityDate"),
      fieldsInsert_lookup_self]
    simp [h]
  | obj fs2 =>
    simp only [addToProjectDoc, JVal.getKey, hsome, if_true]
    rw [fieldsInsert_lookup_ne _ _ _ _
        (by decide : ("artifactIds" : String) ≠ "updatedAt"),
      fieldsInsert_lookup_ne _ _ _ _
        (by decide : ("artifactIds" : String) ≠ "lastActivityDate"),
      fieldsInsert_lookup_self]
    simp [h]

theorem addToProjectDoc_obj (aid now : String) (fs : List (String × JVal)) :
    ∃ fs3, addToProjectDoc aid now (.obj fs) = .obj fs3 :=
  ⟨_, rfl⟩

theorem addToProjectDoc_ids_idem (aid now1 now2 : String) (p : JVal) :
    (addToProjectDoc aid now2 (addToProjectDoc aid now1 p)).getKey "artifactIds" =
      (addToProjectDoc aid now1 p).getKey "artifactIds" := by
  cases p with
  | null => rfl
  | bool b => rfl
  | num n => rfl
  | str s => rfl
  | arr l => rfl
  | obj fs =>
    obtain ⟨fs3, hfs3⟩ := addToProjectDoc_obj aid now1 fs
    cases h : fs.lookup "artifactIds" with
    | none =>
      have h1 := addToProjectDoc_ids_absent aid now1 fs h
      rw [hfs3] at h1 ⊢
      have h1' : fs3.lookup "artifactIds" = some (.arr [.str aid]) := by
        simpa [JVal.getKey] using h1
      rw [addToProjectDoc_ids_arr aid now2 fs3 [.str aid] h1', h1]
      simp [isStrVal]
    | some v =>
      cases v with
      | arr xs =>
        have h1 := addToProjectDoc_ids_arr aid now1 fs xs h
        rw [hfs3] at h1 ⊢
        have h1' : fs3.lookup "artifactIds" =
            some (.arr (if xs.any (isStrVal aid) then xs else xs ++ [.str aid])) := by
          simpa [JVal.getKey] using h1
        have hany : (if xs.any (isStrVal aid) then xs
            else xs ++ [.str aid]).any (isStrVal aid) = true := by
          by_cases hxs : xs.any (isStrVal aid) = true
          · simp [hxs]
          · have hxs' : xs.any (isStrVal aid) = false := by simpa using hxs
            simp [hxs', List.any_append, isStrVal]
        rw [addToProjectDoc_ids_arr aid now2 fs3 _ h1', h1, hany, if_pos rfl]
      | null =>
        have h1 := addToProjectDoc_ids_other aid now1 fs _ h rfl
        rw [hfs3] at h1 ⊢
        have h1' : fs3.lookup "artifactIds" = some .null := by
          simpa [JVal.getKey] using h1
        rw [addToProjectDoc_ids_other aid now2 fs3 _ h1' rfl, h1]
      | bool b =>
        have h1 := addToProjectDoc_ids_other aid now1 fs _ h rfl
        rw [hfs3] at h1 ⊢
        have h1' : fs3.lookup "artifactIds" = some (.bool b) := by
          simpa [JVal.getKey] using h1
        rw [addToProjectDoc_ids_other aid now2 fs3 _ h1' rfl, h1]
      | num n =>
        have h1 := addToProjectDoc_ids_other aid now1 fs _ h rfl
        rw [hfs3] at h1 ⊢
        have h1' : fs3.lookup "artifactIds" = some (.num n) := by
          simpa [JVal.getKey] using h1
        rw [addToProjectDoc_ids_other aid now2 fs3 _ h1' rfl, h1]
      | str s =>
        have h1 := addToProjectDoc_ids_other aid now1 fs _ h rfl
        rw [hfs3] at h1 ⊢
        have h1' : fs3.lookup "artifactIds" = some (.str s) := by
          simpa [JVal.getKey] using h1
        rw [addToProjectDoc_ids_other aid now2 fs3 _ h1' rfl, h1]
      | obj fs2 =>
        have h1 := addToProjectDoc_ids_other aid now1 fs _ h rfl
        rw [hfs3] at h1 ⊢
        have h1' : fs3.lookup "artifactIds" = some (.obj fs2) := by
          simpa [JVal.getKey] using h1
        rw [addToProjectDoc_ids_other aid now2 fs3 _ h1' rfl, h1]

theorem modifyFirst_twice (field pid : String) (g1 g2 : JVal → JVal)
    (hg1 : ∀ x, idOf field (g1 x) = idOf field x) (l l2 : List JVal)
    (h : modifyFirst field pid g1 l = some l2) :
    ∃ l3, modifyFirst field pid g2 l2 = some l3 ∧
      ∀ (f : JVal → Option JVal), (∀ x, f (g2 (g1 x)) = f (g1 x)) →
        l3.map f = l2.map f := by
  induction l generalizing l2 with
  | nil => simp [modifyFirst] at h
  | cons x xs ih =>
    by_cases hx : (idOf field x == some pid) = true
    · simp only [modifyFirst, hx, if_true, Option.some.injEq] at h
      subst h
      refine ⟨g2 (g1 x) :: xs, ?_, ?_⟩
      · have hgx : (idOf field (g1 x) == some pid) = true := by
          rw [hg1 x]; exact hx
        simp [modifyFirst, hgx]
      · intro f hf
        simp [hf x]
    · have hx' : (idOf field x == some pid) = false := by simpa using hx
      simp only [modifyFirst, hx', Bool.false_eq_true, if_false] at h
      cases hm : modifyFirst field pid g1 xs with
      | none => rw [hm] at h; exact Option.noConfusion h
      | some ys =>
        rw [hm] at h
        simp only [Option.some.injEq] at h
        subst h
        obtain ⟨l3t, hl3t, hmap⟩ := ih ys hm
        refine ⟨x :: l3t, ?_, ?_⟩
        · simp [modifyFirst, hx', hl3t]
        · intro f hf
          simp [hmap f hf]

theorem countStrVal_append (s : String) (xs ys : List JVal) :
    countStrVal s (xs ++ ys) = countStrVal s xs + countStrVal s ys := by
  simp [countStrVal, List.filter_append]

theorem countStrVal_zero_of_any_false (s : String) (xs : List JVal)
    (h : xs.any (isStrVal s) = false) : countStrVal s xs = 0 := by
  have hfil : xs.filter (isStrVal s) = [] := by
    apply List.filter_eq_nil_iff.mpr
    intro a ha hsat
    have : xs.any (isStrVal s) = true := List.any_eq_true.mpr ⟨a, ha, hsat⟩
    rw [this] at h
    exact Bool.noConfusion h
  simp [countStrVal, hfil]

/-- C9: `add_artifact_to_project` fails with "Project not found" exactly when
no stored project carries the id (the error path writes nothing); on the
matching project it appends the artifact id to `artifactIds` only when the
array does not already contain it, so an array without duplicates stays
duplicate-free, and running the mutation twice leaves the same
`artifactIds` as running it once — also at the command level. -/
theorem claim_C9_add_artifact :
    (∀ (st : FileState) (pid aid now : String),
      ((∃ e, add_artifact_to_project st pid aid now = .error e) ↔
        (parseVec st).all (fun p => !(idOf "projectId" p == some pid)) = true)) ∧
    (∀ (aid now : String) (fs : List (String × JVal)) (xs : List JVal),
      fs.lookup "artifactIds" = some (.arr xs) →
      (xs.any (isStrVal aid) = false →
        (addToProjectDoc aid now (.obj fs)).getKey "artifactIds" =
          some (.arr (xs ++ [.str aid]))) ∧
      (xs.any (isStrVal aid) = true →
        (addToProjectDoc aid now (.obj fs)).getKey "artifactIds" =
          some (.arr xs)) ∧
      (∀ (s : String) (ys : List JVal),
        countStrVal s xs ≤ 1 →
        (addToProjectDoc aid now (.obj fs)).getKey "artifactIds" =
          some (.arr ys) →
        countStrVal s ys ≤ 1)) ∧
    (∀ (aid now1 now2 : String) (p : JVal),
      (addToProjectDoc aid now2 (addToProjectDoc aid now1 p)).getKey "artifactIds" =
        (addToProjectDoc aid now1 p).getKey "artifactIds") ∧
    (∀ (st st2 : FileState) (pid aid now1 now2 : String),
      add_artifact_to_project st pid aid now1 = .ok st2 →
      ∃ st3, add_artifact_to_project st2 pid aid now2 = .ok st3 ∧
        (parseVec st3).map (fun q => q.getKey "artifactIds") =
          (parseVec st2).map (fun q => q.getKey "artifactIds")) := by
  refine ⟨?_, ?_, ?_, ?_⟩
  · intro st pid aid now
    cases st with
    | absent =>
      simp only [add_artifact_to_project, parseVec, List.all_nil]
      exact ⟨fun _ => trivial, fun _ => ⟨_, rfl⟩⟩
    | file j =>
      cases hm : modifyFirst "projectId" pid (addToProjectDoc aid now)
          (parseVec (.file j)) with
      | some l2 =>
        simp only [add_artifact_to_project, hm]
        constructor
        · rintro ⟨e, he⟩
          exact Except.noConfusion he
        · intro hall
          rw [(modifyFirst_eq_none "projectId" pid (addToProjectDoc aid now)
            (parseVec (.file j))).mpr hall] at hm
          exact Option.noConfusion hm
      | none =>
        simp only [add_artifact_to_project, hm]
        constructor
        · intro _
          exact (modifyFirst_eq_none "projectId" pid (addToProjectDoc aid now)
            (parseVec (.file j))).mp hm
        · intro _
          exact ⟨_, rfl⟩
  · intro aid now fs xs h
    have harr := addToProjectDoc_ids_arr aid now fs xs h
    refine ⟨?_, ?_, ?_⟩
    · intro hany
      rw [harr, hany]
      simp
    · intro hany
      rw [harr, hany]
      simp
    · intro s ys hcount hys
      by_cases hany : xs.any (isStrVal aid) = true
      · rw [harr, hany, if_pos rfl] at hys
        simp only [Option.some.injEq, JVal.arr.injEq] at hys
        subst hys
        exact hcount
      · have hany' : xs.any (isStrVal aid) = false := by simpa using hany
        rw [harr, hany'] at hys
        simp only [Bool.false_eq_true, if_false, Option.some.injEq,
          JVal.arr.injEq] at hys
        subst hys
        rw [countStrVal_append]
        by_cases hs : s = aid
        · subst hs
          rw [countStrVal_zero_of_any_false s xs hany']
          simp [countStrVal, List.filter, isStrVal]
        · have : countStrVal s [JVal.str aid] = 0 := by
            have hne : (aid == s) = false :=
              beq_eq_false_iff_ne.mpr fun hEq => hs hEq.symm
            simp [countStrVal, List.filter, isStrVal, hne]
          omega
  · intro aid now1 now2 p
    exact addToProjectDoc_ids_idem aid now1 now2 p
  · intro st st2 pid aid now1 now2 hok
    cases st with
    | absent => simp [add_artifact_to_project] at hok
    | file j =>
      cases hm : modifyFirst "projectId" pid (addToProjectDoc aid now1)
          (parseVec (.file j)) with
      | none => simp [add_artifact_to_project, hm] at hok
      | some l2 =>
        simp only [add_artifact_to_project, hm, Except.ok.injEq] at hok
        subst hok
        obtain ⟨l3, hl3, hmap⟩ := modifyFirst_twice "projectId" pid
          (addToProjectDoc aid now1) (addToProjectDoc aid now2)
          (addToProjectDoc_idOf aid now1) (parseVec (.file j)) l2 hm
        refine ⟨.file (some (.arr l3)), ?_, ?_⟩
        · have : parseVec (.file (some (.arr l2))) = l2 := rfl
          simp [add_artifact_to_project, this, hl3]
        · show l3.map (fun q => q.getKey "artifactIds") =
            l2.map (fun q => q.getKey "artifactIds")
          exact hmap _ (fun x => addToProjectDoc_ids_idem aid now1 now2 x)

/-- C9 witness: adding a concrete artifact id to a concrete project twice
succeeds and leaves the same `artifactIds` as adding it once, and adding to
an absent index fails. -/
theorem claim_C9_witness :
    (∃ st2, add_artifact_to_project
        (.file (some (.arr [.obj [("projectId", .str "p")]]))) "p" "a" "t1" =
          .ok st2 ∧
      ∃ st3, add_artifact_to_project st2 "p" "a" "t2" = .ok st3 ∧
        (parseVec st3).map (fun q => q.getKey "artifactIds") =
          (parseVec st2).map (fun q => q.getKey "artifactIds")) ∧
    (∃ e, add_artifact_to_project .absent "p" "a" "t1" = .error e) :=
  ⟨⟨_, rfl, claim_C9_add_artifact.2.2.2
      (.file (some (.arr [.obj [("projectId", .str "p")]]))) _
      "p" "a" "t1" "t2" rfl⟩,
   (claim_C9_add_artifact.1 .absent "p" "a" "t1").mpr (by decide)⟩

theorem filterEq_iff (q a : JVal) (k : String) :
    filterEq q a k = true ↔ ∀ s, qStr q k = some s → idOf k a = some s := by
  unfold filterEq
  cases h : qStr q k with
  | none => simp
  | some s => simp [beq_iff_eq]

theorem filterTag_iff (q a : JVal) :
    filterTag q a = true ↔
      ∀ s, qStr q "objectiveTag" = some s →
        ∃ ts, a.getKey "objectiveTags" = some (.arr ts) ∧
          ∃ t ∈ ts, t.asStr = some s := by
  unfold filterTag
  cases h : qStr q "objectiveTag" with
  | none => simp
  | some s =>
    cases hk : a.getKey "objectiveTags" with
    | none => simp
    | some v =>
      cases v with
      | arr ts => simp [List.any_eq_true]
      | null => simp
      | bool b => simp
      | num n => simp
      | str s2 => simp
      | obj fs => simp

theorem filterText_iff (q a : JVal) :
    filterText q a = true ↔
      ∀ s, qStr q "searchText" = some s →
        ∃ title, idOf "title" a = some title ∧ containsLower title s = true := by
  unfold filterText
  cases h : qStr q "searchText" with
  | none => simp
  | some s =>
    cases ht : idOf "title" a with
    | none => simp
    | some title => simp

/-- C2 counterexample: the claim's filter list omits the `designPackId`
equality guard the code applies.  A query holding only `designPackId`
presents none of the claim's filters, so the claim predicts every entry is
returned; the code returns none of the entries lacking that pack id. -/
theorem claim_C2_counterexample :
    claimFilters (.obj [("designPackId", .str "x")]) (.obj []) = true ∧
    search_artifacts (.file (some (.obj [("artifacts", .arr [.obj []])])))
      (some (.obj [("designPackId", .str "x")])) "t" = .ok [] ∧
    ([(.obj [] : JVal)].filter
      (fun x => claimFilters (.obj [("designPackId", .str "x")]) x)) =
        [.obj []] :=
  ⟨rfl, rfl, rfl⟩

/-- C2 (amended): `search_artifacts` returns exactly the index entries that
satisfy every filter present in the query — `projectId`, `grade`,
`subject`, `type` and `designPackId` equality; `objectiveTag` membership;
case-insensitive substring match of `searchText` against `title` — the
filters are conjoined with AND, and a filter absent from the query excludes
no entry. -/
theorem claim_C2_search_conjunctive (l : List JVal) (q a : JVal)
    (now : String) :
    search_artifacts (.file (some (.obj [("artifacts", .arr l)]))) (some q)
        now = .ok (l.filter (fun x => matchesQuery q x)) ∧
    (matchesQuery q a = true ↔
      ((∀ s, qStr q "projectId" = some s → idOf "projectId" a = some s) ∧
       (∀ s, qStr q "grade" = some s → idOf "grade" a = some s) ∧
       (∀ s, qStr q "subject" = some s → idOf "subject" a = some s) ∧
       (∀ s, qStr q "type" = some s → idOf "type" a = some s) ∧
       (∀ s, qStr q "objectiveTag" = some s →
         ∃ ts, a.getKey "objectiveTags" = some (.arr ts) ∧
           ∃ t ∈ ts, t.asStr = some s) ∧
       (∀ s, qStr q "designPackId" = some s → idOf "designPackId" a = some s) ∧
       (∀ s, qStr q "searchText" = some s →
         ∃ title, idOf "title" a = some title ∧
           containsLower title s = true))) := by
  constructor
  · rfl
  · unfold matchesQuery
    simp only [Bool.and_eq_true]
    rw [filterEq_iff, filterEq_iff, filterEq_iff, filterEq_iff, filterTag_iff,
      filterEq_iff, filterText_iff]
    tauto

/-- C2 witness: the amended search equation evaluated at a concrete index
and query. -/
theorem claim_C2_witness :
    search_artifacts (.file (some (.obj [("artifacts",
        .arr [.obj [("grade", .str "g")]])])))
      (some (.obj [("grade", .str "g")])) "t" =
      .ok ([.obj [("grade", .str "g")]].filter
        (fun x => matchesQuery (.obj [("grade", .str "g")]) x)) :=
  (claim_C2_search_conjunctive [.obj [("grade", .str "g")]]
    (.obj [("grade", .str "g")]) (.obj []) "t").1
